import Mathlib

/-!
Verification of the Caldera server boot module (`server.py`) and of the
Operation Execution & Planning Engine it starts, against the natural-language
specification.  The boot module is embedded directly from the source; engine
components whose code lives outside the present tree (fact store, result
pipeline, scheduler, snapshot persistence, error handlers) are modelled from
the specification text, as marked on each definition.
-/

set_option autoImplicit false

namespace Caldera

/-! ## Boot sequence (`run_tasks` and `__main__` in `server.py`) -/

/-- One observable action of the boot module, in the order `server.py`
performs them.  `create*Task` actions are `loop.create_task(...)` calls
(the task is created/started at that point of the sequence);
the others are `loop.run_until_complete(...)` calls that run to completion
before the next line. -/
inductive BootAction where
  | destroyObjectStore
  | createBuildDocsTask
  | restoreState
  | enableRestApi
  | registerContacts
  | loadPlugins
  | loadData
  | createSnifferTask
  | createResumeOperationsTask
  | createRunSchedulerTask
  | createBuildModelTask
  | startServer
  | runForever
  deriving DecidableEq, Repr

/-- The body of `run_tasks(services)`: the ordered list of actions it takes
on the event loop, transcribed line by line from the source. -/
def run_tasks : List BootAction :=
  [ .createBuildDocsTask
  , .restoreState
  , .enableRestApi
  , .registerContacts
  , .loadPlugins
  , .loadData
  , .createSnifferTask
  , .createResumeOperationsTask
  , .createRunSchedulerTask
  , .createBuildModelTask
  , .startServer
  , .runForever ]

/-- The `__main__` tail of `server.py` after configuration loading:
`data_svc.destroy()` is awaited to completion when and only when `--fresh`
was passed, and then `run_tasks` runs. -/
def mainBootActions (fresh : Bool) : List BootAction :=
  (if fresh then [BootAction.destroyObjectStore] else []) ++ run_tasks

/-- Configuration-file resolution from `__main__`:
`config = args.environment if pathlib.Path('conf/%s.yml' % args.environment).exists() else 'default'`.
`fileExists` abstracts `pathlib.Path(...).exists()`. -/
def resolveConfigName (environment : String) (fileExists : String → Bool) : String :=
  if fileExists ("conf/" ++ environment ++ ".yml") then environment else "default"

/-- The three `BaseWorld.apply_config` calls of `__main__`, in order:
each pairs the config name with the yml file it is loaded from. -/
def configLoads (environment : String) (fileExists : String → Bool) :
    List (String × String) :=
  [ ("default", "conf/" ++ resolveConfigName environment fileExists ++ ".yml")
  , ("agents", "conf/agents.yml")
  , ("payloads", "conf/payloads.yml") ]

/-! ## `validate_environment` (`server.py` lines 33-51)

The function probes `python --version` and `go version` (in that dict order),
skips a probe whose command fails, extracts a version with `re.search`,
parses it with `distutils.version.StrictVersion`, and calls `sys.exit(1)`
when the parsed version is `<=` the configured minimum.  Any exception
(regex miss → `AttributeError` on `.group`, unparsable version →
`ValueError`) aborts the whole loop and returns `False`; `sys.exit` raises
`SystemExit`, which `except Exception` does not catch. -/

/-- A character of the version character class `[0-9\.]`. -/
def isVerChar (c : Char) : Bool := c.isDigit || c = '.'

/-- Match of `([0-9\.]+)` anchored at the head of the text: the maximal
nonempty run of version characters. -/
def matchVerAt (cs : List Char) : Option (List Char) :=
  let run := cs.takeWhile isVerChar
  if run.isEmpty then none else some run

/-- `re.search(r'([0-9\.]+)', output)`: leftmost match, group 1. -/
def searchVer : List Char → Option (List Char)
  | [] => none
  | c :: cs =>
      match matchVerAt (c :: cs) with
      | some r => some r
      | none => searchVer cs

/-- Match of `go([0-9\.]+)` anchored at the head of the text. -/
def matchGoAt : List Char → Option (List Char)
  | 'g' :: 'o' :: rest => matchVerAt rest
  | _ => none

/-- `re.search(r'go([0-9\.]+)', output)`: leftmost match, group 1. -/
def searchGo : List Char → Option (List Char)
  | [] => none
  | c :: cs =>
      match matchGoAt (c :: cs) with
      | some r => some r
      | none => searchGo cs

/-- The two version-extraction patterns appearing in `versions`. -/
inductive VerPattern where
  | plainVer
  | goVer
  deriving DecidableEq, Repr

def patSearch : VerPattern → List Char → Option (List Char)
  | .plainVer, cs => searchVer cs
  | .goVer, cs => searchGo cs

/-- A parsed `distutils.version.StrictVersion`: `major.minor[.patch][ab]N`,
with missing patch read as `0` and prerelease letter `a` encoded `false`,
`b` encoded `true`. -/
structure SVer where
  major : Nat
  minor : Nat
  patch : Nat
  pre : Option (Bool × Nat)
  deriving DecidableEq, Repr

def digitsToNat (cs : List Char) : Nat :=
  cs.foldl (fun n c => n * 10 + (c.toNat - 48)) 0

/-- `StrictVersion.parse`: the anchored regex
`^(\d+)\.(\d+)(\.(\d+))?([ab](\d+))?$`; `none` models the `ValueError`. -/
def parseStrict (cs : List Char) : Option SVer :=
  let p1 := cs.span Char.isDigit
  if p1.1.isEmpty then none
  else
    match p1.2 with
    | '.' :: r2 =>
        let p2 := r2.span Char.isDigit
        if p2.1.isEmpty then none
        else
          let pr : Option Nat × List Char :=
            match p2.2 with
            | '.' :: r5 =>
                let p3 := r5.span Char.isDigit
                if p3.1.isEmpty then (none, p2.2) else (some (digitsToNat p3.1), p3.2)
            | _ => (none, p2.2)
          let preStep : Option (Option (Bool × Nat) × List Char) :=
            match pr.2 with
            | 'a' :: r7 =>
                let p4 := r7.span Char.isDigit
                if p4.1.isEmpty then none else some (some (false, digitsToNat p4.1), p4.2)
            | 'b' :: r7 =>
                let p4 := r7.span Char.isDigit
                if p4.1.isEmpty then none else some (some (true, digitsToNat p4.1), p4.2)
            | _ => some (none, pr.2)
          match preStep with
          | none => none
          | some (pre, r9) =>
              if r9.isEmpty then
                some ⟨digitsToNat p1.1, digitsToNat p2.1, pr.1.getD 0, pre⟩
              else none
    | _ => none

/-- Python lexicographic `<` on the `(major, minor, patch)` version tuple. -/
def triLt (a b : SVer) : Bool :=
  a.major < b.major ||
    (a.major = b.major &&
      (a.minor < b.minor || (a.minor = b.minor && a.patch < b.patch)))

/-- `StrictVersion.__le__`: compare version tuples lexicographically; on a
tie a prereleased version is smaller than a final one, and two prereleases
compare lexicographically on `(letter, number)` with `a < b`. -/
def sverLe (a b : SVer) : Bool :=
  if triLt a b then true
  else if triLt b a then false
  else
    match a.pre, b.pre with
    | none, none => true
    | some _, none => true
    | none, some _ => false
    | some p, some q =>
        (!p.1 && q.1) || (p.1 = q.1 && p.2 ≤ q.2)

/-- One entry of the `versions` dict: executable name, probe command,
extraction pattern, configured minimum version. -/
structure Probe where
  exe : String
  cmd : String
  pat : VerPattern
  minVersion : String
  deriving Repr

/-- The `'python'` entry of the `versions` dict. -/
def pythonProbe : Probe := ⟨"python", "python --version", .plainVer, "3.6.1"⟩

/-- The `'go'` entry of the `versions` dict. -/
def goProbe : Probe := ⟨"go", "go version", .goVer, "1.11"⟩

/-- The `versions` dict of `validate_environment`, in its iteration order. -/
def probeList : List Probe := [pythonProbe, goProbe]

/-- Observable outcome of `validate_environment`: `sys.exit(code)` or a
normal return of a boolean. -/
inductive VEOutcome where
  | exited (code : Nat)
  | returned (b : Bool)
  deriving DecidableEq, Repr

/-- The `for exe, params in versions.items()` loop inside the `try` block.
`env cmd` abstracts `subprocess.getstatusoutput(cmd)` as an exit status and
a captured output. -/
def runProbes (env : String → Nat × String) : List Probe → VEOutcome
  | [] => .returned true
  | p :: rest =>
      let so := env p.cmd
      if so.1 ≠ 0 then runProbes env rest
      else
        match patSearch p.pat so.2.data with
        | none => .returned false
        | some ver =>
            match parseStrict ver, parseStrict p.minVersion.data with
            | some v, some m =>
                if sverLe v m then .exited 1 else runProbes env rest
            | _, _ => .returned false

/-- `validate_environment()` as a function of the probed environment. -/
def validate_environment (env : String → Nat × String) : VEOutcome :=
  runProbes env probeList

/-- C8's right-hand side, read directly from the claim: the probe's command
exits successfully, its output matches the version pattern, and the parsed
version compares `<=` the configured minimum. -/
def probeIsLow (env : String → Nat × String) (p : Probe) : Bool :=
  let so := env p.cmd
  so.1 = 0 &&
    (match patSearch p.pat so.2.data with
     | none => false
     | some ver =>
         match parseStrict ver, parseStrict p.minVersion.data with
         | some v, some m => sverLe v m
         | _, _ => false)

/-- `∃ probe, …` of the claim, over the fixed probe list. -/
def someProbeLow (env : String → Nat × String) : Bool :=
  probeList.any (probeIsLow env)

/-- How the loop body disposes of one probe: skipped (command failed),
passed (version above minimum), fatal (version at or below minimum →
`sys.exit(1)`), or exceptional (regex miss or `ValueError` → the `except`
clause returns `False`). -/
inductive ProbeClass where
  | skip
  | high
  | low
  | exc
  deriving DecidableEq, Repr

def classifyProbe (env : String → Nat × String) (p : Probe) : ProbeClass :=
  let so := env p.cmd
  if so.1 ≠ 0 then .skip
  else
    match patSearch p.pat so.2.data with
    | none => .exc
    | some ver =>
        match parseStrict ver, parseStrict p.minVersion.data with
        | some v, some m => if sverLe v m then .low else .high
        | _, _ => .exc

/-- An environment in which the python probe succeeds but its output holds
no digits (regex miss → exception → `return False`), while the go probe
reports go 1.10, which is below the 1.11 minimum. -/
def envMasked : String → Nat × String := fun cmd =>
  if cmd = "python --version" then (0, "Python")
  else if cmd = "go version" then (0, "go version go1.10 linux/amd64")
  else (127, "")

/-! ## Operation Execution & Planning Engine

The engine's code (fact store, link pipeline, scheduler, snapshot
persistence, error handling) lives outside the present tree; the
definitions below are modelled from the specification text, as marked. -/

/-- Modelled from the spec: a Fact is `(trait, value, source, score)`,
unique by `(trait, value)` within an operation (§3).  The fact store code
itself is not in the tree. -/
structure Fact where
  trait : String
  value : String
  source : String
  score : Int
  deriving DecidableEq, Repr

/-- The `(trait, value)` key by which facts are unique. -/
def factKey (f : Fact) : String × String := (f.trait, f.value)

/-- Modelled from the spec: `add(trait, value, source, score)` of the Fact
Store (§4.1): idempotent upsert keyed by `(trait, value)`; a later write
with the same key updates `source`/`score` but never duplicates the entry;
first occurrence fixes insertion order.  The fact store code itself is not
in the tree. -/
def addFact (fs : List Fact) (trait value source : String) (score : Int) : List Fact :=
  if fs.any (fun f => f.trait == trait && f.value == value) then
    fs.map (fun f =>
      if f.trait == trait && f.value == value then ⟨trait, value, source, score⟩ else f)
  else
    fs ++ [⟨trait, value, source, score⟩]

/-- One recorded `add` call. -/
structure AddOp where
  trait : String
  value : String
  source : String
  score : Int
  deriving DecidableEq, Repr

def opKey (op : AddOp) : String × String := (op.trait, op.value)

/-- Apply one recorded `add` call to a store. -/
def applyAdd (fs : List Fact) (op : AddOp) : List Fact :=
  addFact fs op.trait op.value op.source op.score

/-- Replay a sequence of `add` calls against an empty per-operation store. -/
def runAdds (ops : List AddOp) : List Fact :=
  ops.foldl applyAdd []

/-- Spec-side description of "position reflects first insertion": the keys
not yet seen, in order of their first occurrence. -/
def firstOccsFrom (seen : List (String × String)) :
    List (String × String) → List (String × String)
  | [] => []
  | k :: ks =>
      if k ∈ seen then firstOccsFrom seen ks
      else k :: firstOccsFrom (seen ++ [k]) ks

/-- Lookup of the unique fact stored under a key. -/
def factFind (fs : List Fact) (t v : String) : Option Fact :=
  fs.find? (fun f => f.trait == t && f.value == v)

/-- Modelled from the spec: Link status values (§3). -/
inductive LinkStatus where
  | queued
  | collected
  | executing
  | success
  | failed
  | discarded
  deriving DecidableEq, Repr

/-- Terminal statuses: Links once terminal never change (§3). -/
def LinkStatus.isTerminal : LinkStatus → Bool
  | .success => true
  | .failed => true
  | .discarded => true
  | _ => false

/-- Modelled from the spec: a Link, one dispatched unit of work (§3);
fields not touched by the verified operations are omitted. -/
structure Link where
  id : Nat
  abilityId : Nat
  paw : String
  command : String
  status : LinkStatus
  output : Option String
  deriving DecidableEq, Repr

/-- Per-operation mutable state seen by the result pipeline: the ordered
Link list and the operation's fact store. -/
structure OpState where
  links : List Link
  facts : List Fact
  deriving DecidableEq, Repr

/-- The terminal status recorded from a result's exit status. -/
def statusOfExit (ok : Bool) : LinkStatus := if ok then .success else .failed

/-- Modelled from the spec: `submit_result(link-id, status, output)` (§4.6):
if the Link is unknown or already terminal, the call is rejected/ignored
(idempotent no-op); otherwise decode `output` via the ability's parser spec
(abstracted as `parse`), append the extracted facts tagged
`source = link-id` to the Fact Store, and set the Link's terminal status
from `status`.  The pipeline code itself is not in the tree. -/
def submit_result (parse : String → List (String × String × Int))
    (st : OpState) (linkId : Nat) (ok : Bool) (output : String) : OpState :=
  match st.links.find? (fun l => l.id == linkId) with
  | none => st
  | some l =>
      if l.status.isTerminal then st
      else
        { links := st.links.map (fun l2 =>
            if l2.id == linkId then
              { l2 with status := statusOfExit ok, output := some output }
            else l2),
          facts := (parse output).foldl
            (fun fs tvs => addFact fs tvs.1 tvs.2.1 (toString linkId) tvs.2.2)
            st.facts }

/-- Modelled from the spec: a Schedule `(id, operation template, cadence,
next-fire-time)` (§3); persisted, loaded at startup, fires at most once per
due interval even across restarts.  The scheduler code itself is not in the
tree. -/
structure Schedule where
  id : Nat
  cadence : Nat
  nextFire : Nat
  deriving DecidableEq, Repr

/-- Modelled from the spec: one Scheduler tick on one Schedule (§6, §8): a
Schedule whose next-fire-time is at or before `now` — no matter how many
whole cadence intervals in the past — is treated as due exactly once,
creating one Operation, and its next-fire-time is rescheduled forward to
`now + cadence`; otherwise nothing happens.  Returns the updated Schedule
and the number of Operations created. -/
def tickSchedule (now : Nat) (s : Schedule) : Schedule × Nat :=
  if s.nextFire ≤ now then ({ s with nextFire := now + s.cadence }, 1) else (s, 0)

/-- One Scheduler tick over the whole schedule list: the rescheduled list
and the total number of Operations created. -/
def tickAll (now : Nat) (ss : List Schedule) : List Schedule × Nat :=
  (ss.map (fun s => (tickSchedule now s).1),
   (ss.map (fun s => (tickSchedule now s).2)).sum)

/-- Error conditions handled inside the engine, from the table of §7. -/
inductive ErrCondition where
  | renderFailure (linkId : Nat)
  | parseFailure (linkId : Nat) (exitOk : Bool)
  | duplicateResult (linkId : Nat)
  | badScheduleEntry (entry : String)
  | linkTimeout (linkId : Nat)
  deriving DecidableEq, Repr

/-- How an error is surfaced: auto-recovered, logged as a non-blocking
warning, or fatal to the process.  The engine never produces `fatal`. -/
inductive Disposition where
  | recovered
  | warned
  | fatal
  deriving DecidableEq, Repr

/-- Modelled from the spec: the error-handling table of §7.  Render failure
marks the Link `failed` with no fact mutation; output-parse failure sets the
Link status from the exit code with zero facts extracted (logged,
non-fatal); a duplicate result is rejected with state unaffected; a bad
schedule entry is skipped with a warning; a collection/execution timeout
transitions the Link to `discarded`.  The handler code itself is not in the
tree. -/
def handleError (st : OpState) : ErrCondition → OpState × Disposition
  | .renderFailure lid =>
      ({ st with links := st.links.map (fun l =>
          if l.id == lid && !l.status.isTerminal then { l with status := .failed } else l) },
        .recovered)
  | .parseFailure lid exitOk =>
      ({ st with links := st.links.map (fun l =>
          if l.id == lid && !l.status.isTerminal then { l with status := statusOfExit exitOk } else l) },
        .warned)
  | .duplicateResult _ => (st, .recovered)
  | .badScheduleEntry _ => (st, .warned)
  | .linkTimeout lid =>
      ({ st with links := st.links.map (fun l =>
          if l.id == lid && !l.status.isTerminal then { l with status := .discarded } else l) },
        .recovered)

/-- Modelled from the spec: an event that triggers a Planner decision for
one Operation (§4.5): an Agent beacon matching its filter, or the periodic
tick. -/
inductive OpEvent where
  | beacon (paw : String)
  | tick
  deriving DecidableEq, Repr

/-- A system-level event tagged with the Operation it concerns. -/
structure GEvent where
  opId : Nat
  ev : OpEvent
  deriving DecidableEq, Repr

/-- Modelled from the spec: the per-operation decision bookkeeping — the
operation's fresh-link counter and the Link-id set emitted by each
completed Planner decision, in order. -/
structure DecisionState where
  nextLinkId : Nat
  decisions : List (List Nat)
  deriving DecidableEq, Repr

/-- Modelled from the spec: one serialized decision critical section (§4.5,
§5): the engine invokes the Planner — abstracted as the number of links it
emits from the current state — and records the dispatched Link set as one
atomic step; link ids are drawn from the operation's fresh counter. -/
def decideStep (planner : DecisionState → Nat) (st : DecisionState) : DecisionState :=
  { nextLinkId := st.nextLinkId + planner st,
    decisions := st.decisions ++
      [(List.range (planner st)).map (fun i => st.nextLinkId + i)] }

/-- Sequential processing of one Operation's own events by its
single-consumer mailbox (§5): each event runs one decision section. -/
def processOpEvents (planner : DecisionState → Nat) (evs : List OpEvent)
    (st : DecisionState) : DecisionState :=
  evs.foldl (fun st2 _ => decideStep planner st2) st

/-- Modelled from the spec: the global system processes an arbitrary
interleaving of all operations' beacon/tick events; each event's decision
runs atomically inside its own Operation's exclusive section and touches
only that Operation's state (§5). -/
def processEvents (planner : DecisionState → Nat) (evs : List GEvent)
    (g : Nat → DecisionState) : Nat → DecisionState :=
  evs.foldl
    (fun g2 e => fun o => if o = e.opId then decideStep planner (g2 o) else g2 o) g

/-- Every Operation starts with an empty decision history and fresh-link
counter zero. -/
def initOps : Nat → DecisionState := fun _ => ⟨0, []⟩

/-- Well-formedness of a decision history: all issued link ids are below
the fresh counter, each decision's set is duplicate-free, and distinct
decisions are disjoint. -/
def wfDecisions (st : DecisionState) : Prop :=
  (∀ d ∈ st.decisions, ∀ i ∈ d, i < st.nextLinkId) ∧
  (∀ d ∈ st.decisions, d.Nodup) ∧
  st.decisions.Pairwise (fun d1 d2 => ∀ i ∈ d1, i ∉ d2)

/-- Modelled from the spec: Operation lifecycle states (§4.5). -/
inductive OpLifecycle where
  | running
  | paused
  | finished
  | cleanup
  | out_of_time
  deriving DecidableEq, Repr

/-- Modelled from the spec: a persisted Operation with its Link history and
per-operation Fact Store (§3, §6). -/
structure SOperation where
  id : Nat
  name : String
  state : OpLifecycle
  links : List Link
  facts : List Fact
  deriving DecidableEq, Repr

/-- Modelled from the spec: a registered Agent (§3); fields not touched by
snapshotting are omitted. -/
structure SAgent where
  paw : String
  platform : String
  lastSeen : Nat
  trusted : Bool
  deriving DecidableEq, Repr

/-- The state persisted by a snapshot: Operations (with Link history and
per-operation Fact Store), the Agent Registry, and the Schedules (§6). -/
structure SystemState where
  operations : List SOperation
  agents : List SAgent
  schedules : List Schedule
  deriving DecidableEq, Repr

/-- The serialization wire format of a snapshot: an untyped tree of atoms
and lists. -/
inductive Value where
  | nat (n : Nat)
  | int (i : Int)
  | str (s : String)
  | bool (b : Bool)
  | list (vs : List Value)

def encodeStatus : LinkStatus → Value
  | .queued => .nat 0
  | .collected => .nat 1
  | .executing => .nat 2
  | .success => .nat 3
  | .failed => .nat 4
  | .discarded => .nat 5

def decodeStatus : Value → Option LinkStatus
  | .nat 0 => some .queued
  | .nat 1 => some .collected
  | .nat 2 => some .executing
  | .nat 3 => some .success
  | .nat 4 => some .failed
  | .nat 5 => some .discarded
  | _ => none

def encodeLifecycle : OpLifecycle → Value
  | .running => .nat 0
  | .paused => .nat 1
  | .finished => .nat 2
  | .cleanup => .nat 3
  | .out_of_time => .nat 4

def decodeLifecycle : Value → Option OpLifecycle
  | .nat 0 => some .running
  | .nat 1 => some .paused
  | .nat 2 => some .finished
  | .nat 3 => some .cleanup
  | .nat 4 => some .out_of_time
  | _ => none

def encodeOptStr : Option String → Value
  | none => .list []
  | some s => .list [.str s]

def decodeOptStr : Value → Option (Option String)
  | .list [] => some none
  | .list [.str s] => some (some s)
  | _ => none

def encodeFact (f : Fact) : Value :=
  .list [.str f.trait, .str f.value, .str f.source, .int f.score]

def decodeFact : Value → Option Fact
  | .list [.str t, .str v, .str s, .int sc] => some ⟨t, v, s, sc⟩
  | _ => none

def encodeLink (l : Link) : Value :=
  .list [.nat l.id, .nat l.abilityId, .str l.paw, .str l.command,
    encodeStatus l.status, encodeOptStr l.output]

/-- Decode every element of a serialized list, failing if any fails. -/
def decodeAll {α : Type} (dec : Value → Option α) : List Value → Option (List α)
  | [] => some []
  | v :: vs => do
      let x ← dec v
      let xs ← decodeAll dec vs
      pure (x :: xs)

def decodeLink : Value → Option Link
  | .list [.nat i, .nat a, .str p, .str c, sv, ov] => do
      let st ← decodeStatus sv
      let o ← decodeOptStr ov
      pure ⟨i, a, p, c, st, o⟩
  | _ => none

def encodeOperation (o : SOperation) : Value :=
  .list [.nat o.id, .str o.name, encodeLifecycle o.state,
    .list (o.links.map encodeLink), .list (o.facts.map encodeFact)]

def decodeOperation : Value → Option SOperation
  | .list [.nat i, .str n, sv, .list lvs, .list fvs] => do
      let st ← decodeLifecycle sv
      let ls ← decodeAll decodeLink lvs
      let fs ← decodeAll decodeFact fvs
      pure ⟨i, n, st, ls, fs⟩
  | _ => none

def encodeAgent (a : SAgent) : Value :=
  .list [.str a.paw, .str a.platform, .nat a.lastSeen, .bool a.trusted]

def decodeAgent : Value → Option SAgent
  | .list [.str p, .str pl, .nat t, .bool tr] => some ⟨p, pl, t, tr⟩
  | _ => none

def encodeSchedule (s : Schedule) : Value :=
  .list [.nat s.id, .nat s.cadence, .nat s.nextFire]

def decodeSchedule : Value → Option Schedule
  | .list [.nat i, .nat c, .nat n] => some ⟨i, c, n⟩
  | _ => none

/-- Modelled from the spec: the persisted snapshot is a full serialization
of {Operations (with Link history), Fact Store per operation, Agent
Registry, Schedules} (§6).  The persistence code itself is not in the
tree. -/
def serializeSnapshot (s : SystemState) : Value :=
  .list [.list (s.operations.map encodeOperation),
    .list (s.agents.map encodeAgent),
    .list (s.schedules.map encodeSchedule)]

/-- Modelled from the spec: restoring a snapshot at startup
(`restore_state`); a malformed snapshot yields `none`. -/
def restoreSnapshot : Value → Option SystemState
  | .list [.list ovs, .list avs, .list svs] => do
      let ops ← decodeAll decodeOperation ovs
      let ags ← decodeAll decodeAgent avs
      let ss ← decodeAll decodeSchedule svs
      pure ⟨ops, ags, ss⟩
  | _ => none

end Caldera

namespace Caldera

/-- C7: the boot sequence is fixed and ordered: persisted state is restored
before plugins are loaded, plugins are loaded before the scheduler task is
created, and the scheduler task is created before the network listener
(`start_server`) begins serving. -/
theorem boot_sequence_ordered :
    run_tasks.indexOf BootAction.restoreState < run_tasks.indexOf BootAction.loadPlugins ∧
    run_tasks.indexOf BootAction.loadPlugins < run_tasks.indexOf BootAction.createRunSchedulerTask ∧
    run_tasks.indexOf BootAction.createRunSchedulerTask < run_tasks.indexOf BootAction.startServer ∧
    BootAction.restoreState ∈ run_tasks ∧ BootAction.loadPlugins ∈ run_tasks ∧
    BootAction.createRunSchedulerTask ∈ run_tasks ∧ BootAction.startServer ∈ run_tasks := by
  decide

/-- C10: `data_svc.destroy()` runs exactly when `--fresh` is supplied, and it
completes before `run_tasks` begins, hence before `restore_state`; without
`--fresh` the object store is never destroyed. -/
theorem fresh_flag_destroys_object_store :
    (∀ fresh : Bool, BootAction.destroyObjectStore ∈ mainBootActions fresh ↔ fresh = true) ∧
    (mainBootActions true).indexOf BootAction.destroyObjectStore <
      (mainBootActions true).indexOf BootAction.restoreState ∧
    (mainBootActions true).indexOf BootAction.destroyObjectStore = 0 := by
  refine ⟨?_, by decide, by decide⟩
  intro fresh
  cases fresh <;> simp [mainBootActions, run_tasks]

/-- C9: when `conf/E.yml` does not exist the server loads `conf/default.yml`
as the `default` configuration; when it exists that file is loaded; `agents`
and `payloads` are always loaded from their fixed files. -/
theorem config_fallback (E : String) (fileExists : String → Bool) :
    (fileExists ("conf/" ++ E ++ ".yml") = false →
      configLoads E fileExists =
        [("default", "conf/default.yml"), ("agents", "conf/agents.yml"),
         ("payloads", "conf/payloads.yml")]) ∧
    (fileExists ("conf/" ++ E ++ ".yml") = true →
      configLoads E fileExists =
        [("default", "conf/" ++ E ++ ".yml"), ("agents", "conf/agents.yml"),
         ("payloads", "conf/payloads.yml")]) := by
  constructor <;> intro h <;> simp [configLoads, resolveConfigName, h]

/-- Witness for C9 at a concrete environment name and file system. -/
theorem config_fallback_witness :
    ((fun _ : String => false) ("conf/" ++ "prod" ++ ".yml") = false →
      configLoads "prod" (fun _ => false) =
        [("default", "conf/default.yml"), ("agents", "conf/agents.yml"),
         ("payloads", "conf/payloads.yml")]) ∧
    configLoads "prod" (fun _ => false) =
      [("default", "conf/default.yml"), ("agents", "conf/agents.yml"),
       ("payloads", "conf/payloads.yml")] := by
  refine ⟨(config_fallback "prod" (fun _ => false)).1, ?_⟩
  exact (config_fallback "prod" (fun _ => false)).1 rfl

/-- Unrolling one iteration of the probe loop according to how the loop body
disposes of that probe. -/
theorem runProbes_cons (env : String → Nat × String) (p : Probe) (rest : List Probe) :
    runProbes env (p :: rest) =
      match classifyProbe env p with
      | .skip => runProbes env rest
      | .high => runProbes env rest
      | .low => .exited 1
      | .exc => .returned false := by
  rcases h : env p.cmd with ⟨st, out⟩
  by_cases hst : st = 0
  · subst hst
    rcases hs : patSearch p.pat out.data with _ | ver
    · simp [runProbes, classifyProbe, h, hs]
    · rcases hv : parseStrict ver with _ | v <;>
        rcases hm : parseStrict p.minVersion.data with _ | m <;>
          simp [runProbes, classifyProbe, h, hs, hv, hm] <;>
            by_cases hle : sverLe v m = true <;> simp [hle]
  · simp [runProbes, classifyProbe, h, hst]

/-- The per-probe condition named by the claim coincides with the loop body
taking its `sys.exit(1)` branch on that probe. -/
theorem classifyProbe_low_iff (env : String → Nat × String) (p : Probe) :
    classifyProbe env p = .low ↔ probeIsLow env p = true := by
  rcases h : env p.cmd with ⟨st, out⟩
  by_cases hst : st = 0
  · subst hst
    rcases hs : patSearch p.pat out.data with _ | ver
    · simp [classifyProbe, probeIsLow, h, hs]
    · rcases hv : parseStrict ver with _ | v <;>
        rcases hm : parseStrict p.minVersion.data with _ | m <;>
          simp [classifyProbe, probeIsLow, h, hs, hv, hm] <;>
            by_cases hle : sverLe v m = true <;> simp [hle]
  · simp [classifyProbe, probeIsLow, h, hst]

/-- C8 (amended): `validate_environment` calls `sys.exit(1)` iff a probe
satisfies the claim's condition (command succeeds, output matches, parsed
version at or below the minimum) *and* every earlier probe in the fixed
python-then-go order was skipped (command failed) or passed (version above
minimum); a probe that succeeds but whose output fails to match or to parse
raises an exception that makes the function return `False` immediately,
masking any later too-old probe. -/
theorem validate_environment_exit_characterization (env : String → Nat × String) :
    (∀ p : Probe, classifyProbe env p = .low ↔ probeIsLow env p = true) ∧
    (validate_environment env = .exited 1 ↔
      (classifyProbe env pythonProbe = .low ∨
        ((classifyProbe env pythonProbe = .skip ∨ classifyProbe env pythonProbe = .high) ∧
          classifyProbe env goProbe = .low))) ∧
    (validate_environment env = .returned false ↔
      (classifyProbe env pythonProbe = .exc ∨
        ((classifyProbe env pythonProbe = .skip ∨ classifyProbe env pythonProbe = .high) ∧
          classifyProbe env goProbe = .exc))) := by
  refine ⟨classifyProbe_low_iff env, ?_, ?_⟩ <;>
    · have hnil : runProbes env [] = VEOutcome.returned true := rfl
      have hpy := runProbes_cons env pythonProbe [goProbe]
      have hgo := runProbes_cons env goProbe []
      rcases hc1 : classifyProbe env pythonProbe <;>
        rcases hc2 : classifyProbe env goProbe <;>
          simp only [hc1, hc2, hnil] at hpy hgo <;>
            simp [validate_environment, probeList, hpy, hgo, hc1, hc2]

/-- C8 counterexample: in `envMasked` the go probe satisfies the claim's
exit condition (go 1.10 is below the minimum 1.11), yet the function does
not exit: the python probe's unparsable output raised first and the
`except` clause returned `False`. -/
theorem validate_environment_claim_counterexample :
    ¬ (validate_environment envMasked = .exited 1 ↔ someProbeLow envMasked = true) := by
  decide

/-- The upsert's membership test agrees with key membership. -/
theorem addFact_any_iff (fs : List Fact) (t v : String) :
    (fs.any (fun f => f.trait == t && f.value == v) = true) ↔ (t, v) ∈ fs.map factKey := by
  simp only [List.any_eq_true, Bool.and_eq_true, beq_iff_eq, List.mem_map, factKey,
    Prod.mk.injEq]

/-- Upsert of a key already present leaves the key sequence unchanged. -/
theorem addFact_keys_of_mem (fs : List Fact) (t v s : String) (sc : Int)
    (h : (t, v) ∈ fs.map factKey) :
    (addFact fs t v s sc).map factKey = fs.map factKey := by
  unfold addFact
  rw [if_pos ((addFact_any_iff fs t v).2 h)]
  rw [List.map_map]
  apply List.map_congr_left
  intro f _
  by_cases hf : (f.trait == t && f.value == v) = true
  · have h2 : f.trait = t ∧ f.value = v := by simpa using hf
    simp only [Function.comp_apply]
    rw [if_pos hf]
    simp [factKey, h2.1, h2.2]
  · simp only [Function.comp_apply]
    rw [if_neg hf]

/-- Upsert of an absent key appends it at the end of the key sequence. -/
theorem addFact_keys_of_not_mem (fs : List Fact) (t v s : String) (sc : Int)
    (h : (t, v) ∉ fs.map factKey) :
    (addFact fs t v s sc).map factKey = fs.map factKey ++ [(t, v)] := by
  unfold addFact
  rw [if_neg (fun hc => h ((addFact_any_iff fs t v).1 hc))]
  simp [factKey]

/-- Lookup after overwrite-in-place finds the fresh entry. -/
theorem find_map_overwrite (t v s : String) (sc : Int) (fs : List Fact)
    (h : fs.any (fun f => f.trait == t && f.value == v) = true) :
    (fs.map (fun f =>
        if f.trait == t && f.value == v then (⟨t, v, s, sc⟩ : Fact) else f)).find?
      (fun f => f.trait == t && f.value == v) = some ⟨t, v, s, sc⟩ := by
  induction fs with
  | nil => simp at h
  | cons f fs ih =>
    by_cases hf : (f.trait == t && f.value == v) = true
    · rw [List.map_cons, if_pos hf]
      exact List.find?_cons_of_pos _ (by simp)
    · rw [List.map_cons, if_neg hf]
      rw [List.find?_cons_of_neg (p := fun f : Fact => f.trait == t && f.value == v) _ hf]
      exact ih (by simpa [List.any_cons, hf] using h)

/-- After an upsert, looking the key up retrieves the freshly written
`source`/`score`. -/
theorem addFact_find_self (fs : List Fact) (t v s : String) (sc : Int) :
    factFind (addFact fs t v s sc) t v = some ⟨t, v, s, sc⟩ := by
  unfold addFact factFind
  by_cases h : fs.any (fun f => f.trait == t && f.value == v) = true
  · rw [if_pos h]
    exact find_map_overwrite t v s sc fs h
  · rw [if_neg h]
    have hnone : fs.find? (fun f => f.trait == t && f.value == v) = none := by
      rw [List.find?_eq_none]
      intro f hf
      intro hc
      exact h (List.any_eq_true.2 ⟨f, hf, hc⟩)
    rw [List.find?_append, hnone]
    simp

/-- Folding the replay over any starting store: the key sequence extends by
the not-yet-seen keys in first-occurrence order. -/
theorem foldl_applyAdd_keys (ops : List AddOp) (fs : List Fact) :
    (ops.foldl applyAdd fs).map factKey =
      fs.map factKey ++ firstOccsFrom (fs.map factKey) (ops.map opKey) := by
  induction ops generalizing fs with
  | nil => simp [firstOccsFrom]
  | cons op ops ih =>
    simp only [List.foldl_cons, List.map_cons, firstOccsFrom]
    by_cases h : opKey op ∈ fs.map factKey
    · rw [if_pos h, ih]
      rw [show applyAdd fs op = addFact fs op.trait op.value op.source op.score from rfl]
      rw [addFact_keys_of_mem fs op.trait op.value op.source op.score h]
    · rw [if_neg h, ih]
      rw [show applyAdd fs op = addFact fs op.trait op.value op.source op.score from rfl]
      rw [addFact_keys_of_not_mem fs op.trait op.value op.source op.score h]
      simp only [List.append_assoc, List.singleton_append]
      exact congrArg _ rfl

/-- The first-occurrence key sequence never repeats a key (relative to the
keys already seen). -/
theorem firstOccsFrom_nodup (l : List (String × String)) :
    ∀ seen : List (String × String), seen.Nodup →
      (seen ++ firstOccsFrom seen l).Nodup := by
  induction l with
  | nil => intro seen hs; simpa [firstOccsFrom] using hs
  | cons k ks ih =>
    intro seen hs
    by_cases h : k ∈ seen
    · simpa [firstOccsFrom, h] using ih seen hs
    · have hs2 : (seen ++ [k]).Nodup := by
        simp [List.nodup_append, hs, h]
      have := ih (seen ++ [k]) hs2
      simpa [firstOccsFrom, h, List.append_assoc] using this

/-- C2: replaying any sequence of `add(trait, value, source, score)` calls,
the Fact Store holds exactly one entry per `(trait, value)` key, the key
sequence lists the keys in order of first insertion, and a later `add` with
an existing key updates `source`/`score` in place. -/
theorem fact_store_unique_key_first_position (ops : List AddOp) (t v s : String) (sc : Int) :
    ((runAdds ops).map factKey).Nodup ∧
    (runAdds ops).map factKey = firstOccsFrom [] (ops.map opKey) ∧
    factFind (addFact (runAdds ops) t v s sc) t v = some ⟨t, v, s, sc⟩ := by
  have hkeys : (runAdds ops).map factKey = firstOccsFrom [] (ops.map opKey) := by
    have := foldl_applyAdd_keys ops []
    simpa [runAdds] using this
  refine ⟨?_, hkeys, addFact_find_self (runAdds ops) t v s sc⟩
  rw [hkeys]
  simpa using firstOccsFrom_nodup (ops.map opKey) [] List.nodup_nil

/-- A result for an already-terminal Link is ignored and the state is
returned unchanged. -/
theorem submit_result_terminal_noop
    (parse : String → List (String × String × Int)) (st : OpState)
    (linkId : Nat) (ok : Bool) (out : String) (l : Link)
    (hl : st.links.find? (fun l2 => l2.id == linkId) = some l)
    (ht : l.status.isTerminal = true) :
    submit_result parse st linkId ok out = st := by
  simp [submit_result, hl, ht]

/-- C3: `submit_result` with an unknown link id, or for a Link already in a
terminal status, is an idempotent no-op: the whole operation state (Link
list, statuses, Fact Store) is unchanged; and a second identical submission
after any first one changes nothing. -/
theorem submit_result_unknown_or_terminal_noop
    (parse : String → List (String × String × Int)) (st : OpState)
    (linkId : Nat) (ok : Bool) (out : String) :
    (st.links.find? (fun l => l.id == linkId) = none →
      submit_result parse st linkId ok out = st) ∧
    (∀ l : Link, st.links.find? (fun l2 => l2.id == linkId) = some l →
      l.status.isTerminal = true → submit_result parse st linkId ok out = st) ∧
    submit_result parse (submit_result parse st linkId ok out) linkId ok out =
      submit_result parse st linkId ok out := by
  refine ⟨?_, ?_, ?_⟩
  · intro h; simp [submit_result, h]
  · intro l hl ht
    exact submit_result_terminal_noop parse st linkId ok out l hl ht
  · rcases hf : st.links.find? (fun l => l.id == linkId) with _ | l
    · simp [submit_result, hf]
    · by_cases ht : l.status.isTerminal = true
      · rw [submit_result_terminal_noop parse st linkId ok out l hf ht]
        exact submit_result_terminal_noop parse st linkId ok out l hf ht
      · have h1 : submit_result parse st linkId ok out =
            { links := st.links.map (fun l2 =>
                if l2.id == linkId then
                  { l2 with status := statusOfExit ok, output := some out }
                else l2),
              facts := (parse out).foldl
                (fun fs tvs => addFact fs tvs.1 tvs.2.1 (toString linkId) tvs.2.2)
                st.facts } := by
          simp only [submit_result, hf]
          rw [if_neg ht]
        have hfind2 :
            (st.links.map (fun l2 =>
              if l2.id == linkId then
                { l2 with status := statusOfExit ok, output := some out }
              else l2)).find? (fun l2 => l2.id == linkId) =
            some { l with status := statusOfExit ok, output := some out } := by
          rw [List.find?_map]
          have hp : ((fun l2 : Link => l2.id == linkId) ∘ (fun l2 : Link =>
              if l2.id == linkId then
                { l2 with status := statusOfExit ok, output := some out }
              else l2)) = fun l2 : Link => l2.id == linkId := by
            funext l2
            simp only [Function.comp_apply]
            by_cases h2 : (l2.id == linkId) = true
            · rw [if_pos h2]
            · rw [if_neg h2]
          rw [hp, hf]
          have hid := List.find?_some (p := fun l2 : Link => l2.id == linkId) hf
          have hid2 : (l.id == linkId) = true := hid
          simp only [Option.map_some']
          rw [if_pos hid2]
        have hterm : (statusOfExit ok).isTerminal = true := by
          cases ok <;> rfl
        rw [h1]
        exact submit_result_terminal_noop parse _ linkId ok out _ hfind2 hterm

/-- Witness for C3: a store holding one Link in terminal status `success`;
a submission for the unknown id 2 and a repeated submission for the
terminal id 1 both leave the state untouched. -/
theorem submit_result_noop_witness :
    submit_result (fun _ => [])
        ⟨[⟨1, 7, "p1", "whoami", LinkStatus.success, none⟩], []⟩ 2 true "o" =
      ⟨[⟨1, 7, "p1", "whoami", LinkStatus.success, none⟩], []⟩ ∧
    submit_result (fun _ => [])
        ⟨[⟨1, 7, "p1", "whoami", LinkStatus.success, none⟩], []⟩ 1 false "o" =
      ⟨[⟨1, 7, "p1", "whoami", LinkStatus.success, none⟩], []⟩ := by
  constructor
  · exact (submit_result_unknown_or_terminal_noop (fun _ => [])
      ⟨[⟨1, 7, "p1", "whoami", LinkStatus.success, none⟩], []⟩ 2 true "o").1 (by rfl)
  · exact (submit_result_unknown_or_terminal_noop (fun _ => [])
      ⟨[⟨1, 7, "p1", "whoami", LinkStatus.success, none⟩], []⟩ 1 false "o").2.1
      ⟨1, 7, "p1", "whoami", LinkStatus.success, none⟩ (by rfl) (by rfl)

/-- C4: a Schedule whose next-fire-time is at or before `now` — including
several whole cadence intervals in the past — fires exactly once on a
Scheduler tick, creating one Operation, and its next-fire-time advances to
`now + cadence`, strictly past `now`; a tick over a schedule list creates
exactly one Operation per due schedule, never one per missed interval. -/
theorem scheduler_fires_once_no_burst (now : Nat) (s : Schedule)
    (hdue : s.nextFire ≤ now) (hc : 0 < s.cadence) :
    (tickSchedule now s).2 = 1 ∧
    (tickSchedule now s).1.nextFire = now + s.cadence ∧
    now < (tickSchedule now s).1.nextFire ∧
    ∀ ss : List Schedule,
      (tickAll now ss).2 =
        (ss.filter (fun s2 => decide (s2.nextFire ≤ now))).length := by
  refine ⟨by simp [tickSchedule, hdue], by simp [tickSchedule, hdue], ?_, ?_⟩
  · simp only [tickSchedule, if_pos hdue]
    exact Nat.lt_add_of_pos_right hc
  · intro ss
    induction ss with
    | nil => rfl
    | cons s2 ss ih =>
      simp only [tickAll] at ih ⊢
      simp only [tickSchedule] at ih ⊢
      by_cases h : s2.nextFire ≤ now <;> simp [h, ih, Nat.add_comm]

/-- Witness for C4: the spec's catch-up scenario, a 1-hour (3600 s) cadence
with next-fire-time 3 hours (10800 s) in the past: one tick creates exactly
one Operation and moves next-fire-time to `now + 3600`. -/
theorem scheduler_fires_once_no_burst_witness :
    (0 : Nat) ≤ 10800 ∧ (0 : Nat) < 3600 ∧
    (tickSchedule 10800 ⟨1, 3600, 0⟩).2 = 1 ∧
    (tickSchedule 10800 ⟨1, 3600, 0⟩).1.nextFire = 10800 + 3600 := by
  have h := scheduler_fires_once_no_burst 10800 ⟨1, 3600, 0⟩ (by decide) (by decide)
  exact ⟨by decide, by decide, h.1, h.2.1⟩

/-- C6: no engine-handled error condition is fatal to the process: each of
the error paths of §7 (render failure, parse failure, duplicate result, bad
schedule entry, link timeout) is auto-recovered or surfaced as a
non-blocking warning, leaving the Fact Store untouched and no Link lost. -/
theorem no_engine_error_is_fatal (st : OpState) (e : ErrCondition) :
    (handleError st e).2 ≠ Disposition.fatal ∧
    (handleError st e).1.facts = st.facts ∧
    (handleError st e).1.links.length = st.links.length := by
  cases e <;> simp [handleError]

/-- One decision critical section preserves well-formedness of the decision
history: fresh ids never collide with already-issued ones. -/
theorem decideStep_wf (planner : DecisionState → Nat) (st : DecisionState)
    (h : wfDecisions st) : wfDecisions (decideStep planner st) := by
  obtain ⟨hb, hn, hp⟩ := h
  refine ⟨?_, ?_, ?_⟩
  · intro d hd i hi
    simp only [decideStep, List.mem_append, List.mem_singleton] at hd
    rcases hd with hd | rfl
    · exact Nat.lt_of_lt_of_le (hb d hd i hi) (Nat.le_add_right _ _)
    · simp only [List.mem_map, List.mem_range] at hi
      obtain ⟨j, hj, rfl⟩ := hi
      simpa [decideStep] using Nat.add_lt_add_left hj st.nextLinkId
  · intro d hd
    simp only [decideStep, List.mem_append, List.mem_singleton] at hd
    rcases hd with hd | rfl
    · exact hn d hd
    · exact (List.nodup_range (planner st)).map (fun a b hab => Nat.add_left_cancel hab)
  · simp only [decideStep]
    rw [List.pairwise_append]
    refine ⟨hp, List.pairwise_singleton _ _, ?_⟩
    intro d1 hd1 d2 hd2 i hi
    simp only [List.mem_singleton] at hd2
    subst hd2
    simp only [List.mem_map, List.mem_range, not_exists]
    intro j hj
    have hlt := hb d1 hd1 i hi
    omega

/-- Sequential mailbox processing preserves well-formedness. -/
theorem processOpEvents_wf (planner : DecisionState → Nat) (evs : List OpEvent)
    (st : DecisionState) (h : wfDecisions st) :
    wfDecisions (processOpEvents planner evs st) := by
  induction evs generalizing st with
  | nil => exact h
  | cons e evs ih => exact ih (decideStep planner st) (decideStep_wf planner st h)

/-- Serializability: under any interleaving, an Operation's final decision
state is what its single-consumer mailbox computes from that Operation's
own event subsequence alone — other Operations' events do not interfere. -/
theorem processEvents_filter (planner : DecisionState → Nat) (evs : List GEvent)
    (g : Nat → DecisionState) (o : Nat) :
    processEvents planner evs g o =
      processOpEvents planner ((evs.filter (fun e => e.opId == o)).map GEvent.ev) (g o) := by
  induction evs generalizing g with
  | nil => rfl
  | cons e evs ih =>
    have hstep : processEvents planner (e :: evs) g =
        processEvents planner evs
          (fun o2 => if o2 = e.opId then decideStep planner (g o2) else g o2) := rfl
    rw [hstep, ih]
    by_cases h : e.opId = o
    · have hb : (e.opId == o) = true := by simpa using h
      simp only [List.filter_cons, hb, if_pos, List.map_cons]
      rw [if_pos h.symm]
      rfl
    · have hb : (e.opId == o) = false := by simpa using h
      simp only [List.filter_cons, hb, Bool.false_eq_true, if_false]
      rw [if_neg (fun hc => h hc.symm)]

/-- C1: per Operation, decisions are serialized and race-free: under any
interleaving of beacon/tick events of all Operations, an Operation's result
equals the sequential processing of its own events (distinct Operations are
independent and may decide concurrently), and no two decision sections
produce overlapping or duplicate Link sets. -/
theorem operation_decisions_serialized_no_overlap
    (planner : DecisionState → Nat) (evs : List GEvent)
    (g : Nat → DecisionState) (o : Nat) :
    (processEvents planner evs g o =
      processOpEvents planner ((evs.filter (fun e => e.opId == o)).map GEvent.ev) (g o)) ∧
    ((processEvents planner evs initOps o).decisions.Pairwise
      fun d1 d2 => ∀ i ∈ d1, i ∉ d2) ∧
    (∀ d ∈ (processEvents planner evs initOps o).decisions, d.Nodup) := by
  have hwf : wfDecisions (processEvents planner evs initOps o) := by
    rw [processEvents_filter]
    refine processOpEvents_wf planner _ _ ?_
    refine ⟨?_, ?_, ?_⟩ <;> simp [initOps]
  exact ⟨processEvents_filter planner evs g o, hwf.2.2, hwf.2.1⟩

theorem decodeStatus_encode (st : LinkStatus) :
    decodeStatus (encodeStatus st) = some st := by
  cases st <;> rfl

theorem decodeLifecycle_encode (st : OpLifecycle) :
    decodeLifecycle (encodeLifecycle st) = some st := by
  cases st <;> rfl

theorem decodeOptStr_encode (o : Option String) :
    decodeOptStr (encodeOptStr o) = some o := by
  cases o <;> rfl

theorem decodeFact_encode (f : Fact) : decodeFact (encodeFact f) = some f := by
  cases f
  rfl

theorem decodeLink_encode (l : Link) : decodeLink (encodeLink l) = some l := by
  cases l with
  | mk i a p c st o =>
    simp [encodeLink, decodeLink, decodeStatus_encode, decodeOptStr_encode]

/-- Element-wise decoding inverts element-wise encoding. -/
theorem decodeAll_encode {α : Type} (enc : α → Value) (dec : Value → Option α)
    (h : ∀ x, dec (enc x) = some x) (xs : List α) :
    decodeAll dec (xs.map enc) = some xs := by
  induction xs with
  | nil => rfl
  | cons x xs ih => simp [decodeAll, h, ih]

theorem decodeOperation_encode (o : SOperation) :
    decodeOperation (encodeOperation o) = some o := by
  cases o with
  | mk i n st ls fs =>
    simp [encodeOperation, decodeOperation, decodeLifecycle_encode,
      decodeAll_encode _ _ decodeLink_encode,
      decodeAll_encode _ _ decodeFact_encode]

theorem decodeAgent_encode (a : SAgent) : decodeAgent (encodeAgent a) = some a := by
  cases a
  rfl

theorem decodeSchedule_encode (s : Schedule) :
    decodeSchedule (encodeSchedule s) = some s := by
  cases s
  rfl

/-- C5: snapshot persistence round-trips: serializing the reachable system
state {Operations with Link history and per-operation Fact Store, Agent
Registry, Schedules} and restoring it at startup reproduces the state
exactly. -/
theorem snapshot_roundtrip (s : SystemState) :
    restoreSnapshot (serializeSnapshot s) = some s := by
  cases s with
  | mk ops ags ss =>
    simp [serializeSnapshot, restoreSnapshot,
      decodeAll_encode _ _ decodeOperation_encode,
      decodeAll_encode _ _ decodeAgent_encode,
      decodeAll_encode _ _ decodeSchedule_encode]

end Caldera
